import Mathlib

/-!
Shallow embedding of the data-derivation and aggregation pipeline of the
e-commerce EDA dashboard (`src/app.py`), together with proofs of the
specification claims about it.

Modelling conventions:
* Numeric row fields are rationals (`ℚ`); pandas `int64` quantities are `ℤ`.
* String-valued keys (`order_id`, `customer_id`, `category`, `region`,
  `payment_method`) are modelled as naturals; their linear order stands in
  for the lexicographic order pandas uses when sorting group keys.
* Calendar dates are triples (year, month, day); timestamps add a
  seconds-of-day component.  Pandas compares timestamps chronologically,
  which for well-formed dates coincides with the lexicographic order on
  the numeric key computed below.
* `pd.to_numeric(..., errors="coerce")` results are `Option ℚ`
  (`none` = parse failure / missing); date parsing results are
  `Option Timestamp`.
-/

namespace ECom

/-- Calendar date: year, month (1-12), day (1-31). -/
structure Date where
  y : ℕ
  m : ℕ
  d : ℕ
  deriving DecidableEq, Repr

/-- Timestamp: a calendar date plus a seconds-of-day offset (pandas
`datetime64[ns]` truncated to seconds; sub-second precision is irrelevant
to every claim). -/
structure Timestamp where
  date : Date
  sec : ℕ
  deriving DecidableEq, Repr

/-- Well-formedness of a calendar date: month and day in range. -/
def Date.wf (d : Date) : Prop := 1 ≤ d.m ∧ d.m ≤ 12 ∧ 1 ≤ d.d ∧ d.d ≤ 31

instance (d : Date) : Decidable d.wf := by unfold Date.wf; infer_instance

/-- Numeric key that orders dates lexicographically by (year, month, day);
for well-formed dates this coincides with chronological order. -/
def dateKey (d : Date) : ℕ := (d.y * 100 + d.m) * 100 + d.d

/-- Numeric key ordering timestamps chronologically (calendar date first,
then seconds of day). -/
def tsKey (t : Timestamp) : ℕ := dateKey t.date * 100000 + t.sec

/-- Chronological order on calendar dates, stated structurally
(year, then month, then day). -/
def Date.lexLe (a b : Date) : Prop :=
  a.y < b.y ∨ (a.y = b.y ∧ (a.m < b.m ∨ (a.m = b.m ∧ a.d ≤ b.d)))

instance (a b : Date) : Decidable (Date.lexLe a b) := by
  unfold Date.lexLe; infer_instance

/-- Gregorian leap-year rule. -/
def isLeap (y : ℕ) : Bool := (y % 4 == 0 && y % 100 != 0) || (y % 400 == 0)

/-- Number of days of month `m` in year `y`. -/
def daysInMonth (y m : ℕ) : ℕ :=
  if m = 2 then (if isLeap y then 29 else 28)
  else if m = 4 ∨ m = 6 ∨ m = 9 ∨ m = 11 then 30
  else 31

/-- Month index relative to January 1677 (the month of the smallest
representable pandas `datetime64[ns]` value). -/
def monthIdx (d : Date) : ℕ := 12 * (d.y - 1677) + (d.m - 1)

/-- Year containing month index `n`. -/
def midxYear (n : ℕ) : ℕ := 1677 + n / 12

/-- Month (1-12) of month index `n`. -/
def midxMonth (n : ℕ) : ℕ := n % 12 + 1

/-- Length in days of the month with index `n`. -/
def monthLen (n : ℕ) : ℕ := daysInMonth (midxYear n) (midxMonth n)

/-- Days from 1677-01-01 to the first day of the month with index `n`. -/
def msd : ℕ → ℕ
  | 0 => 0
  | n + 1 => msd n + monthLen n

/-- First day of the month of `d` (the value of
`order_date.dt.to_period("M").dt.to_timestamp()`). -/
def monthStart (d : Date) : Date := ⟨d.y, d.m, 1⟩

/-- Days from 1677-01-01 to the date `d`. -/
def dayNum (d : Date) : ℕ := msd (monthIdx d) + (d.d - 1)

/-- Day number of the Monday starting the week of `d` (the value of
`order_date.dt.to_period("W").dt.start_time`; pandas weekly periods run
Monday through Sunday).  The constant 5 aligns the week so that day 0
(1677-01-01, a Friday) has weekday index `(0 + 5) % 7 = 4`. -/
def weekStart (d : Date) : ℕ := dayNum d - (dayNum d + 5) % 7

/-- Raw input row as it stands after CSV field splitting: key fields plus
the parse results of the date and numeric fields (`none` = unparseable or
missing). -/
structure RawRow where
  order_date : Option Timestamp
  order_id : ℕ
  customer_id : ℕ
  category : ℕ
  region : ℕ
  payment_method : ℕ
  quantity : Option ℚ
  price : Option ℚ
  discount : Option ℚ
  deriving DecidableEq, Repr

/-- Load-time failure taxonomy (spec §7): the only fatal condition modelled
here is an unparseable `order_date`, which in `load_data` prevents the
datetime accessor from producing the derived date columns and aborts the
load. -/
inductive SchemaError where
  | unparseableDate
  deriving DecidableEq, Repr

/-- Coercion `pd.to_numeric(x, errors="coerce").fillna(0)`. -/
def toNum (x : Option ℚ) : ℚ := x.getD 0

/-- Integer cast `astype(int)`: truncation toward zero. -/
def truncQ (q : ℚ) : ℤ := if q < 0 then ⌈q⌉ else ⌊q⌋

/-- Normalized and derived row (the canonical dataset's row type). -/
structure Row where
  order_date : Timestamp
  order_id : ℕ
  customer_id : ℕ
  category : ℕ
  region : ℕ
  payment_method : ℕ
  quantity : ℤ
  price : ℚ
  discount : ℚ
  sales : ℚ
  order_month : Date
  order_day : Date
  order_week : ℕ
  deriving DecidableEq, Repr

/-- Normalization and derivation of one row (the body of `load_data` after
date parsing): numeric coercions with default 0, then the derived columns
`sales`, `order_month`, `order_day`, `order_week`. -/
def deriveRow (raw : RawRow) (ts : Timestamp) : Row :=
  let q : ℤ := truncQ (toNum raw.quantity)
  let p : ℚ := toNum raw.price
  let disc : ℚ := toNum raw.discount
  { order_date := ts
    order_id := raw.order_id
    customer_id := raw.customer_id
    category := raw.category
    region := raw.region
    payment_method := raw.payment_method
    quantity := q
    price := p
    discount := disc
    sales := (q : ℚ) * p * (1 - disc)
    order_month := monthStart ts.date
    order_day := ts.date
    order_week := weekStart ts.date }

/-- Default timestamp used only under a proof that parsing succeeded. -/
def ts0 : Timestamp := ⟨⟨1677, 1, 1⟩, 0⟩

/-- `load_data`: parse dates for the whole column, and fail the load when
any value is unparseable (in `src/app.py` the unparsed column makes the
`.dt` accessor of line 23 raise before the dataset is built; spec §7 calls
this failure `SchemaError`).  On success, coerce the numeric fields and
add the derived columns. -/
def load_data (raws : List RawRow) : Except SchemaError (List Row) :=
  if raws.all (fun r => r.order_date.isSome) then
    Except.ok (raws.map (fun r => deriveRow r (r.order_date.getD ts0)))
  else
    Except.error SchemaError.unparseableDate

/-- Filter spec supplied by the sidebar: selected category/region/payment
sets and an inclusive calendar-date range. -/
structure FilterSpec where
  categories : List ℕ
  regions : List ℕ
  payment_methods : List ℕ
  date_start : Date
  date_end : Date

/-- Row-level filter predicate of `df_filtered` (`src/app.py` lines 66-72):
set membership on the three categorical columns and an inclusive range
check on the calendar date `order_date.dt.date` (time of day ignored). -/
def rowPasses (spec : FilterSpec) (r : Row) : Bool :=
  spec.categories.contains r.category &&
  spec.regions.contains r.region &&
  spec.payment_methods.contains r.payment_method &&
  decide (dateKey spec.date_start ≤ dateKey r.order_date.date) &&
  decide (dateKey r.order_date.date ≤ dateKey spec.date_end)

/-- The filtered view `df_filtered`. -/
def df_filtered (spec : FilterSpec) (df : List Row) : List Row :=
  df.filter (rowPasses spec)

/-- Witness for C1 at a concrete dataset: a row with negative quantity
(-3) and discount 3/2 outside [0,1]; its sales come out as
(-3) * 10 * (1 - 3/2) = 15 with no clamping. -/
def exRawsC1 : List RawRow :=
  [{ order_date := some ⟨⟨2024, 1, 5⟩, 3600⟩, order_id := 1, customer_id := 1,
     category := 1, region := 1, payment_method := 1,
     quantity := some (-3), price := some 10, discount := some (3/2) },
   { order_date := some ⟨⟨2024, 2, 10⟩, 0⟩, order_id := 2, customer_id := 1,
     category := 1, region := 1, payment_method := 1,
     quantity := none, price := some 10, discount := some (1/2) }]

/-- Rows produced by `load_data` on `exRawsC1`. -/
def exRowsC1 : List Row := exRawsC1.map (fun r => deriveRow r (r.order_date.getD ts0))

/-- Witness for C3: a one-row dataset whose date failed to parse. -/
def exRawsC3 : List RawRow :=
  [{ order_date := none, order_id := 1, customer_id := 1,
     category := 1, region := 1, payment_method := 1,
     quantity := some 1, price := some 5, discount := some 0 }]

/-- Concrete dataset for the C2 witness. -/
def exRowC2 : Row :=
  deriveRow { order_date := some ⟨⟨2024, 1, 31⟩, 86399⟩, order_id := 1, customer_id := 1,
              category := 3, region := 7, payment_method := 2,
              quantity := some 2, price := some 10, discount := some 0 }
    ⟨⟨2024, 1, 31⟩, 86399⟩

/-- Concrete filter spec for the C2 witness: the date range ends on the
row's own calendar day, so the row passes only because bounds are
inclusive and times of day are ignored. -/
def exSpecC2 : FilterSpec :=
  { categories := [3, 4], regions := [7], payment_methods := [2, 9],
    date_start := ⟨2024, 1, 1⟩, date_end := ⟨2024, 1, 31⟩ }

/-- Deduplication keeping first occurrences (the key list of a pandas
`groupby` before sorting, and the value set of `unique`/`nunique`). -/
def dedupFirst {α : Type} [DecidableEq α] (l : List α) : List α :=
  l.foldl (fun acc a => if a ∈ acc then acc else acc ++ [a]) []

/-- Ascending sorted key list of a pandas `groupby` (group keys are
deduplicated and sorted ascending). -/
def sortedKeys (l : List ℕ) : List ℕ := List.insertionSort (· ≤ ·) (dedupFirst l)

/-- Rows of the view belonging to customer `c`. -/
def rowsOfCustomer (view : List Row) (c : ℕ) : List Row :=
  view.filter (fun r => r.customer_id == c)

/-- Distinct `order_id` values of customer `c` in the view
(`groupby("customer_id")["order_id"].nunique()` lists these per key). -/
def ordersOfCustomer (view : List Row) (c : ℕ) : List ℕ :=
  dedupFirst ((rowsOfCustomer view c).map (fun r => r.order_id))

/-- KPI `unique_customers = df_filtered["customer_id"].nunique()`. -/
def unique_customers (view : List Row) : ℕ :=
  (dedupFirst (view.map (fun r => r.customer_id))).length

/-- KPI `total_orders = df_filtered["order_id"].nunique()`. -/
def total_orders (view : List Row) : ℕ :=
  (dedupFirst (view.map (fun r => r.order_id))).length

/-- KPI `total_revenue = df_filtered["sales"].sum()`. -/
def total_revenue (view : List Row) : ℚ :=
  (view.map (fun r => r.sales)).sum

/-- KPI `repeat_rate` (`src/app.py` line 101): count, over the groupby's
per-customer distinct-order counts, of those exceeding 1, divided by
`max(unique_customers, 1)`. -/
def repeat_rate (view : List Row) : ℚ :=
  ((((sortedKeys (view.map (fun r => r.customer_id))).map
      (fun c => (ordersOfCustomer view c).length)).filter
        (fun n => decide (1 < n))).length : ℚ) /
    ((max (unique_customers view) 1 : ℕ) : ℚ)

/-- Modelled from the spec's words for comparison: the number of customers
with at least 2 distinct `order_id` values. -/
def customersWithRepeat (view : List Row) : ℕ :=
  ((dedupFirst (view.map (fun r => r.customer_id))).filter
    (fun c => decide (2 ≤ (ordersOfCustomer view c).length))).length

/-- Rows of the view belonging to order `o`. -/
def rowsOfOrder (view : List Row) (o : ℕ) : List Row :=
  view.filter (fun r => r.order_id == o)

/-- Summed `sales` of order `o` within the view. -/
def orderSum (view : List Row) (o : ℕ) : ℚ :=
  ((rowsOfOrder view o).map (fun r => r.sales)).sum

/-- Per-order sales sums in the key order produced by
`groupby("order_id")["sales"].sum()` (keys sorted ascending). -/
def perOrderSums (view : List Row) : List ℚ :=
  (sortedKeys (view.map (fun r => r.order_id))).map (orderSum view)

/-- Mean of a pandas numeric series: NaN (here `none`) when empty. -/
def meanQ (l : List ℚ) : Option ℚ :=
  if l.isEmpty then none else some (l.sum / (l.length : ℚ))

/-- KPI `aov = df_filtered.groupby("order_id")["sales"].sum().mean()`. -/
def aov (view : List Row) : Option ℚ := meanQ (perOrderSums view)

/-- Modelled from the spec's words for comparison: distinct order ids of
the view, in first-appearance order. -/
def specOrderIds (view : List Row) : List ℕ :=
  dedupFirst (view.map (fun r => r.order_id))

/-- Modelled from the spec's words for comparison: mean over distinct
`order_id` groups of the per-order sum of `sales`; undefined (NaN,
here `none`) when there are zero orders. -/
def specAov (view : List Row) : Option ℚ :=
  if specOrderIds view = [] then none
  else some (((specOrderIds view).map (orderSum view)).sum /
    ((specOrderIds view).length : ℚ))

/-- Summed `sales` of customer `c` within the view. -/
def custSum (view : List Row) (c : ℕ) : ℚ :=
  ((rowsOfCustomer view c).map (fun r => r.sales)).sum

/-- Per-customer revenue pairs in groupby key order
(`df_filtered.groupby("customer_id")["sales"].sum()`: distinct customers
sorted ascending, each with its summed sales). -/
def custRevPairs (view : List Row) : List (ℕ × ℚ) :=
  (sortedKeys (view.map (fun r => r.customer_id))).map (fun c => (c, custSum view c))

/-- Comparison of customer revenue pairs by revenue value (the sort key of
`sort_values`). -/
def valLe (a b : ℕ × ℚ) : Prop := a.2 ≤ b.2

instance : DecidableRel valLe := fun a b => inferInstanceAs (Decidable (a.2 ≤ b.2))

instance : IsTotal (ℕ × ℚ) valLe := ⟨fun a b => le_total a.2 b.2⟩

instance : IsTrans (ℕ × ℚ) valLe := ⟨fun _ _ _ h1 h2 => le_trans h1 h2⟩

/-- `cust_rev` (`src/app.py` line 147):
`groupby("customer_id")["sales"].sum().sort_values(ascending=False).head(20)`.
Pandas computes `sort_values(ascending=False)` as the REVERSE of the
ascending argsort (`pandas.core.sorting.nargsort` reverses the indexer);
the ascending argsort with the default `kind="quicksort"` is numpy's
introsort, which below its small-array threshold is a stable insertion
sort, modelled here by the stable `List.insertionSort`. -/
def cust_rev (view : List Row) : List (ℕ × ℚ) :=
  ((List.insertionSort valLe (custRevPairs view)).reverse).take 20

/-- Counterexample to C6 as stated: two customers (ids 1 and 2, in that
original order, both in the rows and in the groupby key order) with equal
summed sales 20.  The code returns them in REVERSED order `[2, 1]`, not in
their original relative order `[1, 2]`. -/
def exViewC6 : List Row :=
  [{ order_date := ⟨⟨2024, 1, 5⟩, 0⟩, order_id := 1, customer_id := 1,
     category := 1, region := 1, payment_method := 1, quantity := 2,
     price := 10, discount := 0, sales := 20, order_month := ⟨2024, 1, 1⟩,
     order_day := ⟨2024, 1, 5⟩, order_week := 126703 },
   { order_date := ⟨⟨2024, 1, 6⟩, 0⟩, order_id := 2, customer_id := 2,
     category := 1, region := 1, payment_method := 1, quantity := 2,
     price := 10, discount := 0, sales := 20, order_month := ⟨2024, 1, 1⟩,
     order_day := ⟨2024, 1, 6⟩, order_week := 126703 }]

/-- Minimum of a list of naturals (0 on the empty list; used only under a
nonemptiness guard, mirroring pandas reductions over a nonempty index). -/
def minN (l : List ℕ) : ℕ :=
  match l with
  | [] => 0
  | x :: xs => xs.foldl min x

/-- Maximum of a list of naturals (0 on the empty list). -/
def maxN (l : List ℕ) : ℕ :=
  match l with
  | [] => 0
  | x :: xs => xs.foldl max x

/-- Month index of every row's order date (the months the view occupies). -/
def viewMonthIdxs (view : List Row) : List ℕ :=
  view.map (fun r => monthIdx r.order_date.date)

/-- Summed `sales` of the rows falling in month index `n`. -/
def salesInMonth (view : List Row) (n : ℕ) : ℚ :=
  ((view.filter (fun r => monthIdx r.order_date.date == n)).map (fun r => r.sales)).sum

/-- Monthly revenue series
`df_filtered.set_index("order_date").resample("M")["sales"].sum()`:
a calendar-complete sequence of consecutive months from the first to the
last observed month (resample bins cover the full range; a month with no
rows gets the empty-group sum 0).  Months are represented by their index;
pandas labels each bin by its month end, a bijective relabeling. -/
def monthly (view : List Row) : List (ℕ × ℚ) :=
  if view.isEmpty then []
  else
    (List.range (maxN (viewMonthIdxs view) + 1 - minN (viewMonthIdxs view))).map
      (fun k => (minN (viewMonthIdxs view) + k,
        salesInMonth view (minN (viewMonthIdxs view) + k)))

/-- Trailing moving average `rolling(3, min_periods=1).mean()`: at index
`i` the mean of the window of the last `min(i+1, 3)` values. -/
def rolling3 (l : List ℚ) : List ℚ :=
  (List.range l.length).map (fun i =>
    ((l.take (i + 1)).drop (i + 1 - 3)).sum /
      ((((l.take (i + 1)).drop (i + 1 - 3)).length : ℕ) : ℚ))

/-- Monthly 3-period rolling average `monthly.rolling(3, min_periods=1).mean()`. -/
def monthly_rolling (view : List Row) : List ℚ :=
  rolling3 ((monthly view).map Prod.snd)

/-- Concrete two-month dataset for the C7 witness: January 1677 with sales
20 and February 1677 with sales 5; the rolling series starts with 20 and
(20 + 5) / 2. -/
def exViewC7 : List Row :=
  [{ order_date := ⟨⟨1677, 1, 5⟩, 0⟩, order_id := 1, customer_id := 1,
     category := 1, region := 1, payment_method := 1, quantity := 2,
     price := 10, discount := 0, sales := 20, order_month := ⟨1677, 1, 1⟩,
     order_day := ⟨1677, 1, 5⟩, order_week := 0 },
   { order_date := ⟨⟨1677, 2, 10⟩, 0⟩, order_id := 2, customer_id := 1,
     category := 1, region := 1, payment_method := 1, quantity := 1,
     price := 10, discount := 1/2, sales := 5, order_month := ⟨1677, 2, 1⟩,
     order_day := ⟨1677, 2, 10⟩, order_week := 0 }]

/-- Deviation, in seconds, of the calendar month-start line from the
average-month line at month index `n`.  Pandas converts
`np.timedelta64(1, "M")` to the average month 30.436875 days = 2629746
seconds (the Gregorian 400-year cycle of 146097 days has 4800 months). -/
def fval (n : ℕ) : ℤ := 86400 * (msd n : ℤ) - 2629746 * n

/-- Sum of `monthLen` over the months `[a, a+len)`, computed by balanced
splitting; `fuel` bounds the splitting depth so the recursion is
structural (correct whenever `len ≤ 2 ^ fuel`). -/
def sumLenF : ℕ → ℕ → ℕ → ℕ
  | 0, a, len => if len = 0 then 0 else monthLen a
  | fuel + 1, a, len =>
    if len ≤ 1 then (if len = 0 then 0 else monthLen a)
    else sumLenF fuel a (len / 2) + sumLenF fuel (a + len / 2) (len - len / 2)

/-- Minimum of `fval` over the months `[a, a+len)` by balanced splitting,
carrying `s = msd a` so every subterm evaluates in logarithmic depth. -/
def minLo : ℕ → ℕ → ℕ → ℕ → ℤ
  | 0, a, _, s => 86400 * (s : ℤ) - 2629746 * a
  | fuel + 1, a, len, s =>
    if len ≤ 1 then 86400 * (s : ℤ) - 2629746 * a
    else
      min (minLo fuel a (len / 2) s)
        (minLo fuel (a + len / 2) (len - len / 2) (s + sumLenF fuel a (len / 2)))

/-- Maximum of `fval` over the months `[a, a+len)` by balanced splitting. -/
def maxHi : ℕ → ℕ → ℕ → ℕ → ℤ
  | 0, a, _, s => 86400 * (s : ℤ) - 2629746 * a
  | fuel + 1, a, len, s =>
    if len ≤ 1 then 86400 * (s : ℤ) - 2629746 * a
    else
      max (maxHi fuel a (len / 2) s)
        (maxHi fuel (a + len / 2) (len - len / 2) (s + sumLenF fuel a (len / 2)))

/-- Round half to even on rationals (numpy `.round()` semantics, used by
`Series.round()`). -/
def roundHalfEven (q : ℚ) : ℤ :=
  if q - ⌊q⌋ < 1/2 then ⌊q⌋
  else if 1/2 < q - ⌊q⌋ then ⌊q⌋ + 1
  else if ⌊q⌋ % 2 = 0 then ⌊q⌋ else ⌊q⌋ + 1

/-- Cohort month difference exactly as `src/app.py` line 180 computes it:
the timestamp difference `order_month - first_order_month` in seconds,
divided by `np.timedelta64(1, "M")` — which pandas converts to the average
month of 2629746 seconds — then `.round()` (half to even) and
`.astype(int)`. -/
def monthsBetween (om fm : Date) : ℤ :=
  roundHalfEven ((((86400 * ((dayNum om : ℤ) - (dayNum fm : ℤ))) : ℤ) : ℚ) / 2629746)

/-- Validity of a row's order timestamp: well-formed calendar date within
the pandas `datetime64[ns]` range and a sane seconds-of-day value. -/
def Row.dateOK (r : Row) : Prop :=
  r.order_date.date.wf ∧ 1677 ≤ r.order_date.date.y ∧ r.order_date.date.y ≤ 2262 ∧
    r.order_date.sec < 86400

instance (r : Row) : Decidable r.dateOK := by unfold Row.dateOK; infer_instance

/-- One comparison step of `groupby("customer_id")["order_date"].min()`. -/
def minStep (acc : Option Row) (r : Row) : Option Row :=
  match acc with
  | none => some r
  | some m => if tsKey r.order_date < tsKey m.order_date then some r else some m

/-- Row attaining the minimal order timestamp of a list (the first one on
ties; the minimal timestamp value is what pandas `min()` returns). -/
def minTsRow (l : List Row) : Option Row := l.foldl minStep none

/-- First-purchase month of customer `c` within the view
(`groupby("customer_id")["order_date"].min().dt.to_period("M").dt.to_timestamp()`,
the `first_purchase` series of `src/app.py` line 178). -/
def firstMonthOf (view : List Row) (c : ℕ) : Date :=
  match minTsRow (rowsOfCustomer view c) with
  | some r => monthStart r.order_date.date
  | none => ⟨1677, 1, 1⟩

/-- Deduplicated `(customer_id, order_id, order_month)` triples
(`df_filtered[["customer_id","order_id","order_month"]].drop_duplicates()`). -/
def custTriples (view : List Row) : List (ℕ × ℕ × Date) :=
  dedupFirst (view.map (fun r => (r.customer_id, r.order_id, r.order_month)))

/-- One row of the cohort working table `cust` (`src/app.py` lines
179-180): the deduplicated triple merged with the customer's
first-purchase month, plus the computed `months_since_first`. -/
structure CohortEntry where
  cust : ℕ
  oid : ℕ
  om : Date
  fm : Date
  msf : ℤ
  deriving DecidableEq, Repr

/-- The cohort working table of `src/app.py` lines 179-180. -/
def cohortEntries (view : List Row) : List CohortEntry :=
  (custTriples view).map (fun t =>
    { cust := t.1, oid := t.2.1, om := t.2.2,
      fm := firstMonthOf view t.1,
      msf := monthsBetween t.2.2 (firstMonthOf view t.1) })

/-- Row labels of the cohort pivot: distinct `first_order_month` values. -/
def cohortRowKeys (view : List Row) : List Date :=
  dedupFirst ((cohortEntries view).map (fun e => e.fm))

/-- Cohort matrix cell at row `M`, column `k`
(`pivot_table(..., values="customer_id", aggfunc="nunique").fillna(0).astype(int)`):
the number of distinct customers among entries with `first_order_month = M`
and `months_since_first = k`; an absent combination counts 0 (the fill). -/
def cohortCell (view : List Row) (M : Date) (k : ℤ) : ℕ :=
  (dedupFirst (((cohortEntries view).filter
    (fun e => e.fm == M && e.msf == k)).map (fun e => e.cust))).length

/-- Concrete two-month, one-customer dataset for the C8 witness. -/
def exViewC8 : List Row :=
  [{ order_date := ⟨⟨1678, 1, 5⟩, 3600⟩, order_id := 1, customer_id := 1,
     category := 1, region := 1, payment_method := 1, quantity := 2,
     price := 10, discount := 0, sales := 20, order_month := ⟨1678, 1, 1⟩,
     order_day := ⟨1678, 1, 5⟩, order_week := 367 },
   { order_date := ⟨⟨1678, 2, 10⟩, 0⟩, order_id := 2, customer_id := 1,
     category := 1, region := 1, payment_method := 1, quantity := 1,
     price := 10, discount := 1/2, sales := 5, order_month := ⟨1678, 2, 1⟩,
     order_day := ⟨1678, 2, 10⟩, order_week := 400 }]

/-- Concrete one-customer dataset for the C9 witness, with first month
March 1677. -/
def exViewC9 : List Row :=
  [{ order_date := ⟨⟨1677, 3, 4⟩, 120⟩, order_id := 9, customer_id := 7,
     category := 1, region := 1, payment_method := 1, quantity := 1,
     price := 10, discount := 0, sales := 10, order_month := ⟨1677, 3, 1⟩,
     order_day := ⟨1677, 3, 4⟩, order_week := 59 }]

/-- Quantile of a numeric series with pandas default linear
interpolation: position `h = p * (n - 1)` on the sorted copy,
interpolating between the neighbouring order statistics; NaN (`none`) on
an empty series. -/
def quantileQ (l : List ℚ) (p : ℚ) : Option ℚ :=
  if l = [] then none
  else
    some (((List.insertionSort (fun a b : ℚ => a ≤ b) l).getD
        (Int.toNat ⌊p * ((l.length : ℚ) - 1)⌋) 0) +
      (p * ((l.length : ℚ) - 1) - ⌊p * ((l.length : ℚ) - 1)⌋) *
        (((List.insertionSort (fun a b : ℚ => a ≤ b) l).getD
            (Int.toNat ⌊p * ((l.length : ℚ) - 1)⌋ + 1)
            ((List.insertionSort (fun a b : ℚ => a ≤ b) l).getD
              (Int.toNat ⌊p * ((l.length : ℚ) - 1)⌋) 0)) -
          ((List.insertionSort (fun a b : ℚ => a ≤ b) l).getD
            (Int.toNat ⌊p * ((l.length : ℚ) - 1)⌋) 0)))

/-- Minimum of a numeric series, NaN (`none`) when empty. -/
def minQl (l : List ℚ) : Option ℚ :=
  match l with
  | [] => none
  | x :: xs => some (xs.foldl min x)

/-- Maximum of a numeric series, NaN (`none`) when empty. -/
def maxQl (l : List ℚ) : Option ℚ :=
  match l with
  | [] => none
  | x :: xs => some (xs.foldl max x)

/-- Per-column summary statistics of `describe` (count, mean, std, min,
quartiles, max).  The standard deviation is represented by its square
`varSample` (the `ddof = 1` sample variance, a rational); `describe`'s
`std` is its square root and is NaN exactly when `varSample` is `none`. -/
structure NumStats where
  count : ℕ
  mean : Option ℚ
  varSample : Option ℚ
  minV : Option ℚ
  q25 : Option ℚ
  median : Option ℚ
  q75 : Option ℚ
  maxV : Option ℚ
  deriving DecidableEq, Repr

/-- Summary statistics of one numeric column. -/
def numStats (l : List ℚ) : NumStats :=
  { count := l.length
    mean := meanQ l
    varSample :=
      if l.length ≤ 1 then none
      else some ((l.map (fun x => (x - l.sum / (l.length : ℚ)) ^ 2)).sum /
        ((l.length : ℚ) - 1))
    minV := minQl l
    q25 := quantileQ l (1/4)
    median := quantileQ l (1/2)
    q75 := quantileQ l (3/4)
    maxV := maxQl l }

/-- `df_filtered.describe().T` restricted to the four columns that are
numeric for every dataset (quantity, price, discount, sales). -/
def describeView (view : List Row) : NumStats × NumStats × NumStats × NumStats :=
  (numStats (view.map (fun r => (r.quantity : ℚ))),
   numStats (view.map (fun r => r.price)),
   numStats (view.map (fun r => r.discount)),
   numStats (view.map (fun r => r.sales)))

/-- `df_filtered.shape`: row count and the 13 columns of the canonical
dataset (9 input columns plus the 4 derived ones). -/
def dataShape (view : List Row) : ℕ × ℕ := (view.length, 13)

/-- `df_filtered.isna().sum()`: per-column missing-value counts.  After
the load-time coercions every field of the canonical dataset holds a
value (defaults substituted), so each of the 13 columns counts 0. -/
def missingCounts (_view : List Row) : List ℕ := List.replicate 13 0

/-- Revenue heatmap
`pivot_table(values="sales", index="region", columns="category", aggfunc="sum", fill_value=0)`:
rows = observed regions (ascending), columns = observed categories
(ascending), cell = summed sales with 0 for absent combinations. -/
def heatmap (view : List Row) : List (ℕ × List (ℕ × ℚ)) :=
  (sortedKeys (view.map (fun r => r.region))).map (fun rg =>
    (rg, (sortedKeys (view.map (fun r => r.category))).map (fun c =>
      (c, ((view.filter (fun r => r.region == rg && r.category == c)).map
        (fun r => r.sales)).sum))))

/-- Daily revenue series `groupby("order_day")["sales"].sum()`, keyed by
`dateKey` (ascending, chronological for well-formed dates). -/
def daily (view : List Row) : List (ℕ × ℚ) :=
  (sortedKeys (view.map (fun r => dateKey r.order_day))).map (fun k =>
    (k, ((view.filter (fun r => dateKey r.order_day == k)).map
      (fun r => r.sales)).sum))

/-- Weekly revenue series `groupby("order_week")["sales"].sum()`. -/
def weekly (view : List Row) : List (ℕ × ℚ) :=
  (sortedKeys (view.map (fun r => r.order_week))).map (fun k =>
    (k, ((view.filter (fun r => r.order_week == k)).map
      (fun r => r.sales)).sum))

/-- One row of the category summary table (`src/app.py` lines 156-162). -/
structure CatRow where
  category : ℕ
  total_revenue : ℚ
  avg_price : Option ℚ
  avg_discount : Option ℚ
  total_qty : ℤ
  orders : ℕ
  deriving DecidableEq, Repr

/-- Comparison of category rows by total revenue (the `sort_values` key). -/
def catLe (a b : CatRow) : Prop := a.total_revenue ≤ b.total_revenue

instance : DecidableRel catLe := fun a b =>
  inferInstanceAs (Decidable (a.total_revenue ≤ b.total_revenue))

/-- Category summary: per-category aggregates sorted descending by total
revenue (`sort_values("total_revenue", ascending=False)`, pandas's
reverse-of-ascending-argsort, modelled like the top-customer ranking). -/
def cat_summary (view : List Row) : List CatRow :=
  (List.insertionSort catLe ((sortedKeys (view.map (fun r => r.category))).map
    (fun c =>
      { category := c
        total_revenue := (((view.filter (fun r => r.category == c))).map
          (fun r => r.sales)).sum
        avg_price := meanQ (((view.filter (fun r => r.category == c))).map
          (fun r => r.price))
        avg_discount := meanQ (((view.filter (fun r => r.category == c))).map
          (fun r => r.discount))
        total_qty := (((view.filter (fun r => r.category == c))).map
          (fun r => r.quantity)).sum
        orders := (dedupFirst (((view.filter (fun r => r.category == c))).map
          (fun r => r.order_id))).length }))).reverse

/-- Payment-method revenue sums (the grouped sums behind the pie chart
`px.pie(df_filtered, names="payment_method", values="sales")`). -/
def paymentSums (view : List Row) : List (ℕ × ℚ) :=
  (sortedKeys (view.map (fun r => r.payment_method))).map (fun p =>
    (p, ((view.filter (fun r => r.payment_method == p)).map
      (fun r => r.sales)).sum))

/-- Statistics record of an empty numeric column: count 0, everything
else NaN. -/
def emptyStats : NumStats :=
  { count := 0, mean := none, varSample := none, minV := none,
    q25 := none, median := none, q75 := none, maxV := none }

theorem dateKey_le_iff_lexLe {a b : Date} (ha : a.wf) (hb : b.wf) :
    dateKey a ≤ dateKey b ↔ Date.lexLe a b := by
  obtain ⟨h1, h2, h3, h4⟩ := ha
  obtain ⟨g1, g2, g3, g4⟩ := hb
  unfold dateKey Date.lexLe
  omega

/-- C1: For every normalized row, the derived field `sales` equals
`quantity * price * (1 - discount)`, for all coercible inputs, including
rows with negative quantity and rows whose discount lies outside `[0,1]`
(no clamping is applied). -/
theorem sales_eq_qty_price_discount (raws : List RawRow) (rows : List Row)
    (h : load_data raws = Except.ok rows) :
    ∀ row ∈ rows, row.sales = (row.quantity : ℚ) * row.price * (1 - row.discount) := by
  intro row hrow
  unfold load_data at h
  split at h
  · cases h
    obtain ⟨raw, _, rfl⟩ := List.mem_map.mp hrow
    rfl
  · cases h

theorem sales_eq_qty_price_discount_witness :
    load_data exRawsC1 = Except.ok exRowsC1 ∧
      ∀ row ∈ exRowsC1, row.sales = (row.quantity : ℚ) * row.price * (1 - row.discount) :=
  ⟨by rfl, sales_eq_qty_price_discount exRawsC1 exRowsC1 (by rfl)⟩

/-- C3: If any row's `order_date` value is unparseable as a calendar date,
the whole load fails with a `SchemaError`; `load_data` returns the error
and produces no dataset, so the failure precedes every aggregation. -/
theorem load_fails_on_unparseable_date (raws : List RawRow)
    (h : ∃ r ∈ raws, r.order_date = none) :
    load_data raws = Except.error SchemaError.unparseableDate := by
  obtain ⟨r, hr, hnone⟩ := h
  unfold load_data
  split
  · next hall =>
    have := List.all_eq_true.mp hall r hr
    rw [hnone] at this
    simp at this
  · rfl

theorem load_fails_on_unparseable_date_witness :
    (∃ r ∈ exRawsC3, r.order_date = none) ∧
      load_data exRawsC3 = Except.error SchemaError.unparseableDate :=
  ⟨⟨exRawsC3.head (by simp [exRawsC3]), by simp [exRawsC3], rfl⟩,
   load_fails_on_unparseable_date exRawsC3
     ⟨exRawsC3.head (by simp [exRawsC3]), by simp [exRawsC3], rfl⟩⟩

/-- C2: a row of the canonical dataset is in the filtered view iff its
category, region and payment method are in the selected sets and its
calendar date lies between the bounds, both ends inclusive (time of day
is ignored: comparison is on calendar dates). -/
theorem mem_df_filtered_iff (spec : FilterSpec) (df : List Row) (r : Row)
    (hs : spec.date_start.wf) (he : spec.date_end.wf)
    (hdf : ∀ x ∈ df, x.order_date.date.wf) :
    r ∈ df_filtered spec df ↔
      r ∈ df ∧ r.category ∈ spec.categories ∧ r.region ∈ spec.regions ∧
        r.payment_method ∈ spec.payment_methods ∧
        Date.lexLe spec.date_start r.order_date.date ∧
        Date.lexLe r.order_date.date spec.date_end := by
  unfold df_filtered rowPasses
  rw [List.mem_filter]
  constructor
  · rintro ⟨hmem, hpass⟩
    simp only [Bool.and_eq_true, decide_eq_true_eq, List.contains, List.elem_eq_mem] at hpass
    obtain ⟨⟨⟨⟨hc, hr⟩, hp⟩, h1⟩, h2⟩ := hpass
    exact ⟨hmem, by simpa using hc, by simpa using hr, by simpa using hp,
      (dateKey_le_iff_lexLe hs (hdf r hmem)).mp h1,
      (dateKey_le_iff_lexLe (hdf r hmem) he).mp h2⟩
  · rintro ⟨hmem, hc, hr, hp, h1, h2⟩
    refine ⟨hmem, ?_⟩
    simp only [Bool.and_eq_true, decide_eq_true_eq, List.contains, List.elem_eq_mem]
    exact ⟨⟨⟨⟨by simpa using hc, by simpa using hr⟩, by simpa using hp⟩,
      (dateKey_le_iff_lexLe hs (hdf r hmem)).mpr h1⟩,
      (dateKey_le_iff_lexLe (hdf r hmem) he).mpr h2⟩

theorem mem_dedupFirst_aux {α : Type} [DecidableEq α] (l : List α) :
    ∀ (acc : List α) (a : α),
      a ∈ l.foldl (fun acc a => if a ∈ acc then acc else acc ++ [a]) acc ↔
        a ∈ acc ∨ a ∈ l := by
  induction l with
  | nil => simp
  | cons x xs ih =>
    intro acc a
    simp only [List.foldl_cons]
    by_cases hx : x ∈ acc
    · rw [if_pos hx, ih]
      constructor
      · rintro (h | h)
        · exact Or.inl h
        · exact Or.inr (List.mem_cons_of_mem _ h)
      · rintro (h | h)
        · exact Or.inl h
        · rcases List.mem_cons.mp h with rfl | h
          · exact Or.inl hx
          · exact Or.inr h
    · rw [if_neg hx, ih]
      simp only [List.mem_append, List.mem_singleton, List.mem_cons]
      tauto

theorem mem_dedupFirst {α : Type} [DecidableEq α] {l : List α} {a : α} :
    a ∈ dedupFirst l ↔ a ∈ l := by
  unfold dedupFirst
  rw [mem_dedupFirst_aux]
  simp

theorem sortedKeys_perm (l : List ℕ) : List.Perm (sortedKeys l) (dedupFirst l) :=
  List.perm_insertionSort _ _

/-- C4: `repeat_customer_rate` equals the number of customers with at
least 2 distinct orders divided by `max(unique_customers, 1)`; the
denominator is always positive (so the division is never 0/0, i.e. never
NaN), and on the empty view the rate is 0. -/
theorem repeat_rate_correct :
    (∀ view : List Row,
        repeat_rate view =
          (customersWithRepeat view : ℚ) / ((max (unique_customers view) 1 : ℕ) : ℚ) ∧
          (0 : ℚ) < ((max (unique_customers view) 1 : ℕ) : ℚ)) ∧
      repeat_rate ([] : List Row) = 0 := by
  constructor
  · intro view
    constructor
    · unfold repeat_rate customersWithRepeat
      have hnum :
          (((sortedKeys (view.map (fun r => r.customer_id))).map
              (fun c => (ordersOfCustomer view c).length)).filter
            (fun n => decide (1 < n))).length =
          ((dedupFirst (view.map (fun r => r.customer_id))).filter
            (fun c => decide (2 ≤ (ordersOfCustomer view c).length))).length := by
        rw [← List.countP_eq_length_filter, ← List.countP_eq_length_filter,
          List.countP_map]
        refine ((sortedKeys_perm _).countP_eq _).trans ?_
        apply List.countP_congr
        intro c _
        simp only [Function.comp_apply, decide_eq_true_eq]
        omega
      rw [hnum]
    · have : 0 < max (unique_customers view) 1 := by omega
      exact_mod_cast this
  · simp [repeat_rate, sortedKeys, dedupFirst, unique_customers]

/-- C5: `average_order_value` equals the mean over distinct `order_id`
groups of the per-order sum of `sales`; with zero orders the result is the
NaN sentinel (`none`), not an exception — in particular on the empty view. -/
theorem aov_correct :
    (∀ view : List Row, aov view = specAov view) ∧ aov ([] : List Row) = none := by
  constructor
  · intro view
    unfold aov specAov meanQ perOrderSums specOrderIds
    have hperm :
        List.Perm ((sortedKeys (view.map (fun r => r.order_id))).map (orderSum view))
          ((dedupFirst (view.map (fun r => r.order_id))).map (orderSum view)) :=
      (sortedKeys_perm _).map _
    by_cases h : dedupFirst (view.map (fun r => r.order_id)) = []
    · rw [if_pos h]
      have : sortedKeys (view.map (fun r => r.order_id)) = [] := by
        have := sortedKeys_perm (view.map (fun r => r.order_id))
        rw [h] at this
        exact this.eq_nil
      simp [this]
    · rw [if_neg h]
      have hne : sortedKeys (view.map (fun r => r.order_id)) ≠ [] := by
        intro hcon
        have := sortedKeys_perm (view.map (fun r => r.order_id))
        rw [hcon] at this
        exact h this.symm.eq_nil
      have hie : ((sortedKeys (view.map (fun r => r.order_id))).map
          (orderSum view)).isEmpty = false := by
        simp [List.isEmpty_iff, hne]
      rw [if_neg (by simp [hie])]
      rw [hperm.sum_eq, List.length_map,
        (sortedKeys_perm (view.map (fun r => r.order_id))).length_eq]
  · rfl

theorem filter_orderedInsert_val (x : ℕ × ℚ) (l : List (ℕ × ℚ)) (v : ℚ) :
    (List.orderedInsert valLe x l).filter (fun a => a.2 == v) =
      if x.2 = v then x :: l.filter (fun a => a.2 == v)
      else l.filter (fun a => a.2 == v) := by
  induction l with
  | nil =>
    by_cases hx : x.2 = v <;>
      simp [List.orderedInsert, List.filter_cons, hx]
  | cons y ys ih =>
    by_cases hle : valLe x y
    · by_cases hx : x.2 = v <;>
        simp [List.orderedInsert, hle, List.filter_cons, hx]
    · have hylt : y.2 < x.2 := lt_of_not_le hle
      simp only [List.orderedInsert, if_neg hle, List.filter_cons, beq_iff_eq, ih]
      by_cases hx : x.2 = v
      · have hy : ¬ y.2 = v := by rw [← hx]; exact ne_of_lt hylt
        simp [hx, hy]
      · simp [hx]

/-- Stability of the ascending sort, in filter form: for every revenue
value `v`, the elements with value `v` appear in the sorted list in
exactly their original relative order. -/
theorem filter_insertionSort_val (l : List (ℕ × ℚ)) (v : ℚ) :
    (List.insertionSort valLe l).filter (fun a => a.2 == v) =
      l.filter (fun a => a.2 == v) := by
  induction l with
  | nil => rfl
  | cons x xs ih =>
    rw [List.insertionSort, filter_orderedInsert_val, List.filter_cons]
    by_cases hx : x.2 = v
    · rw [if_pos hx, ih]
      simp [hx]
    · rw [if_neg hx, ih]
      simp [hx]

theorem cust_rev_ties_reversed_cex :
    custRevPairs exViewC6 = [(1, 20), (2, 20)] ∧
      cust_rev exViewC6 = [(2, 20), (1, 20)] ∧
      cust_rev exViewC6 ≠ [(1, 20), (2, 20)] := by
  have hpairs : custRevPairs exViewC6 = [(1, 20), (2, 20)] := by
    norm_num [custRevPairs, sortedKeys, dedupFirst, custSum, rowsOfCustomer,
      exViewC6, List.insertionSort, List.orderedInsert]
  have hrev : cust_rev exViewC6 = [(2, 20), (1, 20)] := by
    rw [cust_rev, hpairs]
    norm_num [List.insertionSort, List.orderedInsert, valLe]
  exact ⟨hpairs, hrev, by rw [hrev]; simp⟩

/-- C6 (amended): the top-customers result is the per-customer sums of
sales sorted descending, truncated to at most 20 entries; ties do NOT keep
their original relative order — pandas implements the descending sort by
reversing a stable ascending sort, so customers with equal summed sales
appear in reverse of their original relative order (the filtered ranking
is a prefix of the reversed original tie order). -/
theorem cust_rev_desc_le20_ties_rev (view : List Row) :
    (cust_rev view).length ≤ 20 ∧
      List.Pairwise (fun a b : ℕ × ℚ => b.2 ≤ a.2) (cust_rev view) ∧
      ∀ v : ℚ, ∃ t, (cust_rev view).filter (fun a => a.2 == v) ++ t =
        ((custRevPairs view).filter (fun a => a.2 == v)).reverse := by
  refine ⟨?_, ?_, ?_⟩
  · unfold cust_rev
    rw [List.length_take]
    exact min_le_left _ _
  · unfold cust_rev
    have hs : List.Pairwise valLe (List.insertionSort valLe (custRevPairs view)) :=
      List.sorted_insertionSort valLe (custRevPairs view)
    have hrev : List.Pairwise (fun a b : ℕ × ℚ => b.2 ≤ a.2)
        (List.insertionSort valLe (custRevPairs view)).reverse := by
      rw [List.pairwise_reverse]
      exact hs
    exact hrev.sublist (List.take_sublist _ _)
  · intro v
    refine ⟨((List.insertionSort valLe (custRevPairs view)).reverse.drop 20).filter
      (fun a => a.2 == v), ?_⟩
    unfold cust_rev
    rw [← List.filter_append, List.take_append_drop, List.filter_reverse,
      filter_insertionSort_val]

theorem foldl_min_le_init (l : List ℕ) : ∀ a : ℕ, l.foldl min a ≤ a := by
  induction l with
  | nil => intro a; exact le_refl a
  | cons x xs ih =>
    intro a
    exact le_trans (ih (min a x)) (min_le_left a x)

theorem foldl_min_le_mem (l : List ℕ) :
    ∀ (a x : ℕ), x ∈ l → l.foldl min a ≤ x := by
  induction l with
  | nil => intro a x hx; cases hx
  | cons y ys ih =>
    intro a x hx
    rcases List.mem_cons.mp hx with rfl | hx
    · exact le_trans (foldl_min_le_init ys (min a x)) (min_le_right a x)
    · exact ih (min a y) x hx

theorem foldl_min_mem (l : List ℕ) :
    ∀ a : ℕ, l.foldl min a = a ∨ l.foldl min a ∈ l := by
  induction l with
  | nil => intro a; exact Or.inl rfl
  | cons x xs ih =>
    intro a
    rcases ih (min a x) with h | h
    · rcases min_cases a x with ⟨he, _⟩ | ⟨he, _⟩
      · exact Or.inl (by rw [List.foldl_cons, h, he])
      · exact Or.inr (by rw [List.foldl_cons, h, he]; exact List.mem_cons_self x xs)
    · exact Or.inr (List.mem_cons_of_mem x h)

theorem init_le_foldl_max (l : List ℕ) : ∀ a : ℕ, a ≤ l.foldl max a := by
  induction l with
  | nil => intro a; exact le_refl a
  | cons x xs ih =>
    intro a
    exact le_trans (le_max_left a x) (ih (max a x))

theorem mem_le_foldl_max (l : List ℕ) :
    ∀ (a x : ℕ), x ∈ l → x ≤ l.foldl max a := by
  induction l with
  | nil => intro a x hx; cases hx
  | cons y ys ih =>
    intro a x hx
    rcases List.mem_cons.mp hx with rfl | hx
    · exact le_trans (le_max_right a x) (init_le_foldl_max ys (max a x))
    · exact ih (max a y) x hx

theorem foldl_max_mem (l : List ℕ) :
    ∀ a : ℕ, l.foldl max a = a ∨ l.foldl max a ∈ l := by
  induction l with
  | nil => intro a; exact Or.inl rfl
  | cons x xs ih =>
    intro a
    rcases ih (max a x) with h | h
    · rcases max_cases a x with ⟨he, _⟩ | ⟨he, _⟩
      · exact Or.inl (by rw [List.foldl_cons, h, he])
      · exact Or.inr (by rw [List.foldl_cons, h, he]; exact List.mem_cons_self x xs)
    · exact Or.inr (List.mem_cons_of_mem x h)

theorem minN_mem {l : List ℕ} (h : l ≠ []) : minN l ∈ l := by
  match l with
  | [] => exact absurd rfl h
  | x :: xs =>
    show xs.foldl min x ∈ x :: xs
    rcases foldl_min_mem xs x with he | he
    · rw [he]; exact List.mem_cons_self x xs
    · exact List.mem_cons_of_mem x he

theorem minN_le {l : List ℕ} {x : ℕ} (hx : x ∈ l) : minN l ≤ x := by
  match l with
  | [] => cases hx
  | y :: ys =>
    show ys.foldl min y ≤ x
    rcases List.mem_cons.mp hx with rfl | hx
    · exact foldl_min_le_init ys x
    · exact foldl_min_le_mem ys y x hx

theorem maxN_mem {l : List ℕ} (h : l ≠ []) : maxN l ∈ l := by
  match l with
  | [] => exact absurd rfl h
  | x :: xs =>
    show xs.foldl max x ∈ x :: xs
    rcases foldl_max_mem xs x with he | he
    · rw [he]; exact List.mem_cons_self x xs
    · exact List.mem_cons_of_mem x he

theorem le_maxN {l : List ℕ} {x : ℕ} (hx : x ∈ l) : x ≤ maxN l := by
  match l with
  | [] => cases hx
  | y :: ys =>
    show x ≤ ys.foldl max y
    rcases List.mem_cons.mp hx with rfl | hx
    · exact init_le_foldl_max ys x
    · exact mem_le_foldl_max ys y x hx

/-- C7: for a nonempty view the monthly revenue series is
calendar-complete — its keys are the consecutive months from the first to
the last observed month (both observed, all observed months covered),
months with no rows carry value 0 — and the trailing 3-period rolling
average with `min_periods=1` equals the first value at the first period
and the mean of the first two values at the second period. -/
theorem monthly_resample_rolling (view : List Row) (hne : view ≠ []) :
    ((monthly view).map Prod.fst =
        (List.range (maxN (viewMonthIdxs view) + 1 - minN (viewMonthIdxs view))).map
          (fun k => minN (viewMonthIdxs view) + k) ∧
      minN (viewMonthIdxs view) ∈ viewMonthIdxs view ∧
      maxN (viewMonthIdxs view) ∈ viewMonthIdxs view ∧
      ∀ n ∈ viewMonthIdxs view,
        minN (viewMonthIdxs view) ≤ n ∧ n ≤ maxN (viewMonthIdxs view)) ∧
    (∀ p ∈ monthly view, p.1 ∉ viewMonthIdxs view → p.2 = 0) ∧
    (∀ m0 t, (monthly view).map Prod.snd = m0 :: t →
      (monthly_rolling view).head? = some m0) ∧
    (∀ m0 m1 t, (monthly view).map Prod.snd = m0 :: m1 :: t →
      (monthly_rolling view).get? 1 = some ((m0 + m1) / 2)) := by
  have hvne : viewMonthIdxs view ≠ [] := by
    unfold viewMonthIdxs
    intro h
    exact hne (List.map_eq_nil_iff.mp h)
  have hie : view.isEmpty = false := by
    simpa [List.isEmpty_iff] using hne
  refine ⟨⟨?_, minN_mem hvne, maxN_mem hvne, fun n hn => ⟨minN_le hn, le_maxN hn⟩⟩,
    ?_, ?_, ?_⟩
  · unfold monthly
    rw [hie]
    simp
  · intro p hp hnot
    unfold monthly at hp
    rw [hie] at hp
    simp only [Bool.false_eq_true, if_false, List.mem_map, List.mem_range] at hp
    obtain ⟨k, _, rfl⟩ := hp
    show salesInMonth view _ = 0
    unfold salesInMonth
    have hempty : view.filter
        (fun r => monthIdx r.order_date.date == minN (viewMonthIdxs view) + k) = [] := by
      rw [List.filter_eq_nil_iff]
      intro r hr
      simp only [beq_iff_eq]
      intro hcon
      apply hnot
      rw [← hcon]
      unfold viewMonthIdxs
      exact List.mem_map_of_mem _ hr
    rw [hempty]
    rfl
  · intro m0 t hmt
    unfold monthly_rolling
    rw [hmt]
    unfold rolling3
    simp [List.head?_eq_head, List.range_succ_eq_map]
  · intro m0 m1 t hmt
    unfold monthly_rolling
    rw [hmt]
    unfold rolling3
    have h2 : (m0 :: m1 :: t).length = t.length + 2 := by simp
    rw [h2]
    have hr : List.range (t.length + 2) = 0 :: 1 :: (List.range t.length).map (· + 2) := by
      rw [List.range_succ_eq_map, List.range_succ_eq_map]
      simp [Function.comp, List.map_map]
    rw [hr]
    simp only [List.map_cons, List.get?_cons_succ, List.get?_cons_zero]
    norm_num

theorem monthly_resample_rolling_witness :
    exViewC7 ≠ [] ∧
      (monthly exViewC7).map Prod.snd = 20 :: 5 :: [] ∧
      (monthly_rolling exViewC7).head? = some 20 ∧
      (monthly_rolling exViewC7).get? 1 = some ((20 + 5) / 2) := by
  have hne : exViewC7 ≠ [] := by simp [exViewC7]
  have hvals : (monthly exViewC7).map Prod.snd = 20 :: 5 :: [] := by
    norm_num [monthly, exViewC7, viewMonthIdxs, minN, maxN, monthIdx,
      salesInMonth, List.range_succ]
  exact ⟨hne, hvals,
    (monthly_resample_rolling exViewC7 hne).2.2.1 20 (5 :: []) hvals,
    (monthly_resample_rolling exViewC7 hne).2.2.2 20 5 [] hvals⟩

theorem sumLenF_eq : ∀ (fuel a len : ℕ), len ≤ 2 ^ fuel →
    msd a + sumLenF fuel a len = msd (a + len) := by
  intro fuel
  induction fuel with
  | zero =>
    intro a len hlen
    interval_cases len
    · simp [sumLenF]
    · show msd a + monthLen a = msd (a + 1)
      rfl
  | succ f ih =>
    intro a len hlen
    show msd a + (if len ≤ 1 then (if len = 0 then 0 else monthLen a) else _) = _
    by_cases h1 : len ≤ 1
    · rw [if_pos h1]
      interval_cases len
      · simp
      · show msd a + monthLen a = msd (a + 1)
        rfl
    · rw [if_neg h1]
      have hp : (2 : ℕ) ^ (f + 1) = 2 ^ f * 2 := pow_succ 2 f
      have hL : len / 2 ≤ 2 ^ f := by omega
      have hR : len - len / 2 ≤ 2 ^ f := by omega
      rw [← Nat.add_assoc, ih a (len / 2) hL, ih (a + len / 2) (len - len / 2) hR]
      congr 1
      omega

theorem minLo_le : ∀ (fuel a len s k : ℕ), len ≤ 2 ^ fuel → s = msd a →
    a ≤ k → k < a + len → minLo fuel a len s ≤ fval k := by
  intro fuel
  induction fuel with
  | zero =>
    intro a len s k hlen hs hak hka
    have hk : k = a := by omega
    subst hk hs
    show (86400 * ((msd k : ℕ) : ℤ) - 2629746 * k : ℤ) ≤ fval k
    unfold fval
    exact le_refl _
  | succ f ih =>
    intro a len s k hlen hs hak hka
    show (if len ≤ 1 then (86400 * (s : ℤ) - 2629746 * a) else _) ≤ fval k
    by_cases h1 : len ≤ 1
    · rw [if_pos h1]
      have hk : k = a := by omega
      subst hk hs
      unfold fval
      exact le_refl _
    · rw [if_neg h1]
      have hp : (2 : ℕ) ^ (f + 1) = 2 ^ f * 2 := pow_succ 2 f
      have hL : len / 2 ≤ 2 ^ f := by omega
      have hR : len - len / 2 ≤ 2 ^ f := by omega
      by_cases hk : k < a + len / 2
      · exact le_trans (min_le_left _ _) (ih a (len / 2) s k hL hs hak hk)
      · refine le_trans (min_le_right _ _) (ih (a + len / 2) (len - len / 2)
          (s + sumLenF f a (len / 2)) k hR ?_ (by omega) (by omega))
        rw [hs]
        exact sumLenF_eq f a (len / 2) hL

theorem le_maxHi : ∀ (fuel a len s k : ℕ), len ≤ 2 ^ fuel → s = msd a →
    a ≤ k → k < a + len → fval k ≤ maxHi fuel a len s := by
  intro fuel
  induction fuel with
  | zero =>
    intro a len s k hlen hs hak hka
    have hk : k = a := by omega
    subst hk hs
    show fval k ≤ (86400 * ((msd k : ℕ) : ℤ) - 2629746 * k : ℤ)
    unfold fval
    exact le_refl _
  | succ f ih =>
    intro a len s k hlen hs hak hka
    show fval k ≤ (if len ≤ 1 then (86400 * (s : ℤ) - 2629746 * a) else _)
    by_cases h1 : len ≤ 1
    · rw [if_pos h1]
      have hk : k = a := by omega
      subst hk hs
      unfold fval
      exact le_refl _
    · rw [if_neg h1]
      have hp : (2 : ℕ) ^ (f + 1) = 2 ^ f * 2 := pow_succ 2 f
      have hL : len / 2 ≤ 2 ^ f := by omega
      have hR : len - len / 2 ≤ 2 ^ f := by omega
      by_cases hk : k < a + len / 2
      · exact le_trans (ih a (len / 2) s k hL hs hak hk) (le_max_left _ _)
      · refine le_trans (ih (a + len / 2) (len - len / 2)
          (s + sumLenF f a (len / 2)) k hR ?_ (by omega) (by omega)) (le_max_right _ _)
        rw [hs]
        exact sumLenF_eq f a (len / 2) hL

set_option maxRecDepth 10000 in
theorem minLo_value : minLo 13 0 7033 0 = -317844 := by decide

set_option maxRecDepth 10000 in
theorem maxHi_value : maxHi 13 0 7033 0 = 61614 := by decide

/-- Bound on the deviation of calendar month starts from the
average-month line over the whole pandas-representable month range. -/
theorem fval_bounds (n : ℕ) (hn : n ≤ 7032) :
    -317844 ≤ fval n ∧ fval n ≤ 61614 := by
  have h1 := minLo_le 13 0 7033 0 n (by norm_num) rfl (Nat.zero_le n) (by omega)
  have h2 := le_maxHi 13 0 7033 0 n (by norm_num) rfl (Nat.zero_le n) (by omega)
  rw [minLo_value] at h1
  rw [maxHi_value] at h2
  exact ⟨h1, h2⟩

/-- Any tie-breaking rounding returns the unique nearest integer when the
value is strictly within half a unit of it. -/
theorem roundHalfEven_eq_of_near (q : ℚ) (k : ℤ) (h : |q - k| < 1/2) :
    roundHalfEven q = k := by
  rw [abs_lt] at h
  obtain ⟨h1, h2⟩ := h
  by_cases hq : (k : ℚ) ≤ q
  · have hfl : ⌊q⌋ = k := by
      rw [Int.floor_eq_iff]
      constructor
      · exact hq
      · linarith
    unfold roundHalfEven
    rw [hfl]
    rw [if_pos (by linarith)]
  · have hfl : ⌊q⌋ = k - 1 := by
      rw [Int.floor_eq_iff]
      constructor
      · push_cast
        linarith
      · push_cast
        linarith
    unfold roundHalfEven
    rw [hfl]
    rw [if_neg (by push_cast; linarith), if_pos (by push_cast; linarith)]
    omega

/-- On month-start dates within the pandas-representable range, the
average-month rounded quotient recovers the exact calendar month count. -/
theorem monthsBetween_eq_monthIdx (om fm : Date)
    (hd1 : om.d = 1) (hd2 : fm.d = 1)
    (hom : monthIdx om ≤ 7032) (hfm : monthIdx fm ≤ 7032) :
    monthsBetween om fm = (monthIdx om : ℤ) - (monthIdx fm : ℤ) := by
  have hdn1 : dayNum om = msd (monthIdx om) := by
    unfold dayNum
    rw [hd1]
    norm_num
  have hdn2 : dayNum fm = msd (monthIdx fm) := by
    unfold dayNum
    rw [hd2]
    norm_num
  unfold monthsBetween
  rw [hdn1, hdn2]
  apply roundHalfEven_eq_of_near
  have hfb := fval_bounds (monthIdx om) hom
  have hfa := fval_bounds (monthIdx fm) hfm
  have habs : |fval (monthIdx om) - fval (monthIdx fm)| < 1314873 := by
    rw [abs_lt]
    constructor
    · linarith [hfb.1, hfb.2, hfa.1, hfa.2]
    · linarith [hfb.1, hfb.2, hfa.1, hfa.2]
  have hrw : (((86400 * ((msd (monthIdx om) : ℤ) - (msd (monthIdx fm) : ℤ))) : ℤ) : ℚ) /
        2629746 - (((monthIdx om : ℤ) - (monthIdx fm : ℤ) : ℤ) : ℚ) =
      ((fval (monthIdx om) - fval (monthIdx fm) : ℤ) : ℚ) / 2629746 := by
    unfold fval
    push_cast
    ring
  rw [hrw, abs_div]
  rw [abs_of_pos (by norm_num : (0 : ℚ) < 2629746)]
  rw [div_lt_iff₀ (by norm_num : (0 : ℚ) < 2629746)]
  rw [← Int.cast_abs]
  have h2629 : (1/2 : ℚ) * 2629746 = ((1314873 : ℤ) : ℚ) := by norm_num
  rw [h2629]
  exact_mod_cast habs

theorem monthIdx_le_7032 {d : Date} (hw : d.wf) (hy : d.y ≤ 2262) :
    monthIdx d ≤ 7032 := by
  obtain ⟨h1, h2, h3, h4⟩ := hw
  unfold monthIdx
  omega

theorem monthIdx_le_of_tsKey_le {a b : Timestamp}
    (hwa : a.date.wf) (hwb : b.date.wf)
    (hya : 1677 ≤ a.date.y) (hyb : 1677 ≤ b.date.y)
    (hsa : a.sec < 86400) (hsb : b.sec < 86400)
    (h : tsKey a ≤ tsKey b) : monthIdx a.date ≤ monthIdx b.date := by
  obtain ⟨a1, a2, a3, a4⟩ := hwa
  obtain ⟨b1, b2, b3, b4⟩ := hwb
  unfold tsKey dateKey at h
  unfold monthIdx
  omega

theorem minTsRow_go (xs : List Row) : ∀ m : Row,
    ∃ r0, xs.foldl minStep (some m) = some r0 ∧ (r0 = m ∨ r0 ∈ xs) ∧
      tsKey r0.order_date ≤ tsKey m.order_date ∧
      ∀ r ∈ xs, tsKey r0.order_date ≤ tsKey r.order_date := by
  induction xs with
  | nil =>
    intro m
    exact ⟨m, rfl, Or.inl rfl, le_refl _, by intro r hr; cases hr⟩
  | cons x xs ih =>
    intro m
    show ∃ r0, xs.foldl minStep (minStep (some m) x) = some r0 ∧ _
    have hstep : minStep (some m) x =
        if tsKey x.order_date < tsKey m.order_date then some x else some m := rfl
    rw [hstep]
    by_cases hc : tsKey x.order_date < tsKey m.order_date
    · rw [if_pos hc]
      obtain ⟨r0, heq, hmem, hle, hall⟩ := ih x
      refine ⟨r0, heq, ?_, le_of_lt (lt_of_le_of_lt hle hc), ?_⟩
      · rcases hmem with rfl | hmem
        · exact Or.inr (List.mem_cons_self _ _)
        · exact Or.inr (List.mem_cons_of_mem _ hmem)
      · intro r hrx
        rcases List.mem_cons.mp hrx with rfl | hrx
        · exact hle
        · exact hall r hrx
    · rw [if_neg hc]
      obtain ⟨r0, heq, hmem, hle, hall⟩ := ih m
      refine ⟨r0, heq, ?_, hle, ?_⟩
      · rcases hmem with rfl | hmem
        · exact Or.inl rfl
        · exact Or.inr (List.mem_cons_of_mem _ hmem)
      · intro r hrx
        rcases List.mem_cons.mp hrx with rfl | hrx
        · exact le_trans hle (le_of_not_lt hc)
        · exact hall r hrx

theorem minTsRow_spec {l : List Row} (h : l ≠ []) :
    ∃ r0, minTsRow l = some r0 ∧ r0 ∈ l ∧
      ∀ r ∈ l, tsKey r0.order_date ≤ tsKey r.order_date := by
  match l with
  | [] => exact absurd rfl h
  | x :: xs =>
    obtain ⟨r0, heq, hmem, hle, hall⟩ := minTsRow_go xs x
    refine ⟨r0, heq, ?_, ?_⟩
    · rcases hmem with rfl | hmem
      · exact List.mem_cons_self _ _
      · exact List.mem_cons_of_mem _ hmem
    · intro r hrx
      rcases List.mem_cons.mp hrx with rfl | hrx
      · exact hle
      · exact hall r hrx

theorem monthsBetween_self (M : Date) : monthsBetween M M = 0 := by
  unfold monthsBetween roundHalfEven
  norm_num

/-- C8: for every distinct (customer, order_month) pair in the filtered
view (every cohort entry), `months_since_first` — computed by the code as
the rounded quotient of the timestamp difference by the average month —
equals the integer number of calendar months between `order_month` and the
customer's `first_order_month`, and is non-negative.  Hypotheses: every
row's order date is a valid pandas timestamp, and `order_month` is its
derived month start (true of every dataset produced by `load_data`). -/
theorem months_since_first_correct (view : List Row)
    (hok : ∀ r ∈ view, r.dateOK)
    (hom : ∀ r ∈ view, r.order_month = monthStart r.order_date.date) :
    ∀ e ∈ cohortEntries view,
      e.msf = (monthIdx e.om : ℤ) - (monthIdx e.fm : ℤ) ∧ 0 ≤ e.msf := by
  intro e he
  unfold cohortEntries at he
  obtain ⟨t, ht, rfl⟩ := List.mem_map.mp he
  obtain ⟨r, hr, rfl⟩ := List.mem_map.mp (mem_dedupFirst.mp ht)
  have hrin : r ∈ rowsOfCustomer view r.customer_id := by
    unfold rowsOfCustomer
    rw [List.mem_filter]
    exact ⟨hr, by simp⟩
  have hne : rowsOfCustomer view r.customer_id ≠ [] := by
    intro hcon
    rw [hcon] at hrin
    cases hrin
  obtain ⟨r0, hmin, hr0mem, hr0min⟩ := minTsRow_spec hne
  have hr0view : r0 ∈ view := (List.mem_filter.mp hr0mem).1
  have hfm : firstMonthOf view r.customer_id = monthStart r0.order_date.date := by
    unfold firstMonthOf
    rw [hmin]
  obtain ⟨wfr, hyr1, hyr2, hsr⟩ := hok r hr
  obtain ⟨wf0, hy01, hy02, hs0⟩ := hok r0 hr0view
  have homr := hom r hr
  have hb1 : monthIdx r.order_month ≤ 7032 := by
    rw [homr]
    show monthIdx r.order_date.date ≤ 7032
    exact monthIdx_le_7032 wfr hyr2
  have hb2 : monthIdx (firstMonthOf view r.customer_id) ≤ 7032 := by
    rw [hfm]
    show monthIdx r0.order_date.date ≤ 7032
    exact monthIdx_le_7032 wf0 hy02
  have hd1 : r.order_month.d = 1 := by rw [homr]; rfl
  have hd2 : (firstMonthOf view r.customer_id).d = 1 := by rw [hfm]; rfl
  have heq := monthsBetween_eq_monthIdx r.order_month (firstMonthOf view r.customer_id)
    hd1 hd2 hb1 hb2
  refine ⟨heq, ?_⟩
  show (0 : ℤ) ≤ monthsBetween r.order_month (firstMonthOf view r.customer_id)
  have hmono : monthIdx r0.order_date.date ≤ monthIdx r.order_date.date :=
    monthIdx_le_of_tsKey_le wf0 wfr hy01 hyr1 hs0 hsr (hr0min r hrin)
  have hio : monthIdx r.order_month = monthIdx r.order_date.date := by rw [homr]; rfl
  have hif : monthIdx (firstMonthOf view r.customer_id) = monthIdx r0.order_date.date := by
    rw [hfm]; rfl
  rw [heq, hio, hif]
  omega

theorem months_since_first_correct_witness :
    (∀ r ∈ exViewC8, r.dateOK) ∧
      (∀ r ∈ exViewC8, r.order_month = monthStart r.order_date.date) ∧
      ∀ e ∈ cohortEntries exViewC8,
        e.msf = (monthIdx e.om : ℤ) - (monthIdx e.fm : ℤ) ∧ 0 ≤ e.msf :=
  ⟨by decide, by decide,
   months_since_first_correct exViewC8 (by decide) (by decide)⟩

/-- C9: in the cohort retention matrix of any filtered view, every month
`M` that appears as a row (a `first_order_month` value) has cell
`(M, months_since_first = 0)` at least 1: the customer whose first month
is `M` contributes their own first-month entry, whose
`months_since_first` is the rounded quotient of a zero timestamp
difference, hence 0.  Hypothesis: `order_month` is the derived month start
of `order_date` (true of every dataset produced by `load_data`). -/
theorem cohort_first_cell_pos (view : List Row)
    (hom : ∀ r ∈ view, r.order_month = monthStart r.order_date.date)
    (M : Date) (hM : M ∈ cohortRowKeys view) :
    1 ≤ cohortCell view M 0 := by
  unfold cohortRowKeys at hM
  obtain ⟨e, he, hfmM⟩ := List.mem_map.mp (mem_dedupFirst.mp hM)
  unfold cohortEntries at he
  obtain ⟨t, ht, rfl⟩ := List.mem_map.mp he
  obtain ⟨r, hr, rfl⟩ := List.mem_map.mp (mem_dedupFirst.mp ht)
  simp only at hfmM
  have hrin : r ∈ rowsOfCustomer view r.customer_id := by
    unfold rowsOfCustomer
    rw [List.mem_filter]
    exact ⟨hr, by simp⟩
  have hne : rowsOfCustomer view r.customer_id ≠ [] := by
    intro hcon
    rw [hcon] at hrin
    cases hrin
  obtain ⟨r0, hmin, hr0mem, hr0min⟩ := minTsRow_spec hne
  have hr0view : r0 ∈ view := (List.mem_filter.mp hr0mem).1
  have hr0cust : r0.customer_id = r.customer_id := by
    have h2 := (List.mem_filter.mp hr0mem).2
    simpa using h2
  have hfm : firstMonthOf view r.customer_id = monthStart r0.order_date.date := by
    unfold firstMonthOf
    rw [hmin]
  have homv : r0.order_month = M := by
    rw [hom r0 hr0view, ← hfm]
    exact hfmM
  have ht0 : (r0.customer_id, r0.order_id, r0.order_month) ∈ custTriples view := by
    unfold custTriples
    exact mem_dedupFirst.mpr
      (List.mem_map_of_mem (fun r => (r.customer_id, r.order_id, r.order_month)) hr0view)
  have he0 : (⟨r0.customer_id, r0.order_id, r0.order_month,
      firstMonthOf view r0.customer_id,
      monthsBetween r0.order_month (firstMonthOf view r0.customer_id)⟩ :
        CohortEntry) ∈ cohortEntries view := by
    unfold cohortEntries
    exact List.mem_map.mpr ⟨(r0.customer_id, r0.order_id, r0.order_month), ht0, rfl⟩
  have hfm0 : firstMonthOf view r0.customer_id = M := by
    rw [hr0cust]
    exact hfmM
  have hmsf0 : monthsBetween r0.order_month (firstMonthOf view r0.customer_id) = 0 := by
    rw [homv, hfm0]
    exact monthsBetween_self M
  have hpass : ((⟨r0.customer_id, r0.order_id, r0.order_month,
      firstMonthOf view r0.customer_id,
      monthsBetween r0.order_month (firstMonthOf view r0.customer_id)⟩ :
        CohortEntry).fm == M &&
      (⟨r0.customer_id, r0.order_id, r0.order_month,
        firstMonthOf view r0.customer_id,
        monthsBetween r0.order_month (firstMonthOf view r0.customer_id)⟩ :
          CohortEntry).msf == (0 : ℤ)) = true := by
    simp only [Bool.and_eq_true, beq_iff_eq]
    exact ⟨hfm0, hmsf0⟩
  have hmemf : (⟨r0.customer_id, r0.order_id, r0.order_month,
      firstMonthOf view r0.customer_id,
      monthsBetween r0.order_month (firstMonthOf view r0.customer_id)⟩ :
        CohortEntry) ∈ (cohortEntries view).filter
      (fun e => e.fm == M && e.msf == (0 : ℤ)) :=
    List.mem_filter.mpr ⟨he0, hpass⟩
  have hcm : r0.customer_id ∈ dedupFirst (((cohortEntries view).filter
      (fun e => e.fm == M && e.msf == (0 : ℤ))).map (fun e => e.cust)) := by
    apply mem_dedupFirst.mpr
    exact List.mem_map_of_mem (fun e => e.cust) hmemf
  unfold cohortCell
  exact List.length_pos.mpr (List.ne_nil_of_mem hcm)

theorem cohort_first_cell_pos_witness :
    (∀ r ∈ exViewC9, r.order_month = monthStart r.order_date.date) ∧
      (⟨1677, 3, 1⟩ : Date) ∈ cohortRowKeys exViewC9 ∧
      1 ≤ cohortCell exViewC9 ⟨1677, 3, 1⟩ 0 :=
  ⟨by decide, by decide,
   cohort_first_cell_pos exViewC9 (by decide) ⟨1677, 3, 1⟩ (by decide)⟩

/-- C10: every aggregation of the dashboard, applied to an empty filtered
view, yields its documented well-defined degenerate value — count 0 and
NaN statistics for `describe`, 0 for `total_orders`/`total_revenue`/
`repeat_rate`, NaN for `aov`, and empty series/tables for the heatmap,
the daily/weekly/monthly series, the rolling average, the top-customer
ranking, the category summary, the payment sums and the cohort matrix.
All the embedded aggregations are total functions (partial operations,
such as the mean of an empty series, are modelled with `Option`), so no
aggregation can raise. -/
theorem empty_view_aggregations :
    dataShape [] = (0, 13) ∧
    missingCounts [] = List.replicate 13 0 ∧
    describeView [] = (emptyStats, emptyStats, emptyStats, emptyStats) ∧
    total_orders [] = 0 ∧
    total_revenue [] = 0 ∧
    aov [] = none ∧
    unique_customers [] = 0 ∧
    repeat_rate [] = 0 ∧
    heatmap [] = [] ∧
    daily [] = [] ∧
    weekly [] = [] ∧
    monthly [] = [] ∧
    monthly_rolling [] = [] ∧
    cust_rev [] = [] ∧
    cat_summary [] = [] ∧
    paymentSums [] = [] ∧
    cohortEntries [] = [] ∧
    cohortRowKeys [] = [] ∧
    ∀ (M : Date) (k : ℤ), cohortCell [] M k = 0 := by
  refine ⟨rfl, rfl, rfl, rfl, rfl, rfl, rfl, ?_, rfl, rfl, rfl, rfl, rfl, rfl,
    rfl, rfl, rfl, rfl, fun M k => rfl⟩
  simp [repeat_rate, sortedKeys, dedupFirst, unique_customers]

theorem mem_df_filtered_iff_witness :
    exSpecC2.date_start.wf ∧ exSpecC2.date_end.wf ∧
      (∀ x ∈ [exRowC2], x.order_date.date.wf) ∧
      (exRowC2 ∈ df_filtered exSpecC2 [exRowC2] ↔
        exRowC2 ∈ [exRowC2] ∧ exRowC2.category ∈ exSpecC2.categories ∧
          exRowC2.region ∈ exSpecC2.regions ∧
          exRowC2.payment_method ∈ exSpecC2.payment_methods ∧
          Date.lexLe exSpecC2.date_start exRowC2.order_date.date ∧
          Date.lexLe exRowC2.order_date.date exSpecC2.date_end) :=
  ⟨by decide, by decide, by decide,
   mem_df_filtered_iff exSpecC2 [exRowC2] exRowC2 (by decide) (by decide) (by decide)⟩

end ECom
